import Mathlib

/-!
Verification development for `databases/buildSilvaTaxFiles.py`.

The script builds an NCBI-style taxonomy (nodes.dmp / names.dmp / lastdb.tax)
from either a PR2 fasta file (`buildPR2Tree`) or a Silva taxonomy table plus
fasta file (`buildSilvaTree`), and serialises the tree with `writeDumpFiles`.

The tree of `edl.taxon.TaxNode` objects is embedded as an arena: a list of
`Node` records indexed by position, with `parent` stored as an index and
`children` as a list of indices, following the arena design the spec's
design notes prescribe for the implicit mutable tree.  Python taxon ids are
either the string `'root'` (the synthetic root) or integers, so ids live in
the sum type `PId`.  Functions of the `edl` package that the script calls
but whose source is not part of this repository snapshot
(`edl.silva.SilvaTaxNode.addToTreeFromString`, `edl.util.treeGenerator`,
`edl.util.parseMapFile`, `edl.taxon.ranks`) are modelled from the spec and
carry a doc comment saying so.
-/

/-- A python taxon id: the synthetic root carries the string `'root'`,
Silva nodes carry a non-integer placeholder until the clean-up pass, and
assigned ids are integers. -/
inductive PId where
  | str (s : String)
  | num (n : Nat)
deriving DecidableEq, Repr

/-- One `edl.taxon.TaxNode` in the arena.  `ncbi_tax_id` mirrors the
dynamically attached attribute of the same name in `buildSilvaTree`
(`none` when the attribute is absent). -/
structure Node where
  id : PId
  name : String
  rank : Option String
  ncbi_tax_id : Option Nat
  parent : Option Nat
  children : List Nat
deriving DecidableEq, Repr

/-- Placeholder node used only to make arena indexing total. -/
def dNode : Node :=
  { id := PId.str "", name := "", rank := none, ncbi_tax_id := none,
    parent := none, children := [] }

def idAt (ar : List Node) (i : Nat) : PId := (ar.getD i dNode).id

def nameAt (ar : List Node) (i : Nat) : String := (ar.getD i dNode).name

def rankAt (ar : List Node) (i : Nat) : Option String := (ar.getD i dNode).rank

def ncbiAt (ar : List Node) (i : Nat) : Option Nat := (ar.getD i dNode).ncbi_tax_id

def parentAt (ar : List Node) (i : Nat) : Option Nat := (ar.getD i dNode).parent

def childrenAt (ar : List Node) (i : Nat) : List Nat := (ar.getD i dNode).children

/-- Python-dict lookup over an association list (first match wins; keys are
kept unique by `dictUpd`). -/
def dictGet {α β : Type} [DecidableEq α] : List (α × β) → α → Option β
  | [], _ => none
  | (k2, v) :: t, k => if k = k2 then some v else dictGet t k

/-- Python-dict update: an existing key keeps its position and gets the new
value, a new key is appended at the end (python 3.7+ insertion order). -/
def dictUpd {α β : Type} [DecidableEq α] : List (α × β) → α → β → List (α × β)
  | [], k, v => [(k, v)]
  | (k2, v2) :: t, k, v =>
      if k = k2 then (k, v) :: t else (k2, v2) :: dictUpd t k v

/-- The rank-rename table of the script:
`rankMapping={"superkingdom":"major_clade"}`. -/
def rankMapping : List (String × String) := [("superkingdom", "major_clade")]

/-- `rankMapping.get(rank, rank)` as used at `node.rank = rankMapping.get(rank,rank)`. -/
def rankMappingGet (r : String) : String := (dictGet rankMapping r).getD r

/-- Modelled from the spec: `edl.taxon.ranks`, the fixed recognized rank
vocabulary of the target dump format, which the source of this repository
snapshot does not include.  The spec's data model lists the vocabulary as
"domain, kingdom, phylum, class, order, family, genus, species, no rank". -/
def taxonRanks : List String :=
  ["domain", "kingdom", "phylum", "class", "order", "family", "genus",
   "species", "no rank"]

/-- The rank normalisation performed by `writeDumpFiles`: `'domain'` is
emitted as `'superkingdom'`, a rank in `edl.taxon.ranks` is emitted
unchanged, anything else (including an unset rank) becomes `"no rank"`. -/
def dumpRank : Option String → String
  | some r =>
      if r = "domain" then "superkingdom"
      else if r ∈ taxonRanks then r else "no rank"
  | none => "no rank"

/-- Claim C3, counterexample: a node ingested with rank "superkingdom" is
stored under the internal alias "major_clade" and is dumped as "no rank",
not as "superkingdom"; the ingestion rename (superkingdom→major_clade) and
the output normalisation (domain→superkingdom) are not inverses. -/
theorem rank_roundtrip_counterexample :
    rankMappingGet "superkingdom" = "major_clade" ∧
    dumpRank (some (rankMappingGet "superkingdom")) = "no rank" ∧
    dumpRank (some (rankMappingGet "superkingdom")) ≠ "superkingdom" := by
  refine ⟨by decide, by decide, by decide⟩

/-- Claim C3, amended: a node ingested with rank "superkingdom" is renamed
to the internal alias "major_clade" and later dumped as "no rank" (the
alias is not in the recognized vocabulary), never as "superkingdom"; the
output rename instead maps the rank "domain" to "superkingdom", and
"superkingdom" is only ever emitted for a node whose stored rank is
"domain". -/
theorem rank_roundtrip_amended :
    dumpRank (some (rankMappingGet "superkingdom")) = "no rank" ∧
    dumpRank (some "domain") = "superkingdom" ∧
    ∀ r : String, dumpRank (some r) = "superkingdom" → r = "domain" := by
  refine ⟨by decide, by decide, ?_⟩
  intro r h
  by_contra hne
  simp only [dumpRank] at h
  rw [if_neg hne] at h
  by_cases hmem : r ∈ taxonRanks
  · rw [if_pos hmem] at h
    subst h
    exact absurd hmem (by decide)
  · rw [if_neg hmem] at h
    exact absurd h (by decide)

/-- Witness for `rank_roundtrip_amended`: its final conjunct applied at the
concrete rank "domain". -/
theorem rank_roundtrip_amended_witness :
    dumpRank (some "domain") = "superkingdom" ∧ "domain" = "domain" :=
  ⟨(rank_roundtrip_amended).2.1,
   (rank_roundtrip_amended).2.2 "domain" (rank_roundtrip_amended).2.1⟩

/-- `s.data` written as a function, for readability. -/
def chars (s : String) : List Char := s.data

def ofChars (l : List Char) : String := String.mk l

/-- Python `str.split(sep)` for a one-character separator, over the
character list: `"" → [""]`, `"a|b" → ["a","b"]`, `"|" → ["",""]`. -/
def splitListOn (c : Char) : List Char → List (List Char)
  | [] => [[]]
  | a :: t =>
    match splitListOn c t with
    | [] => if a = c then [[], []] else [[a]]
    | h :: r => if a = c then [] :: h :: r else (a :: h) :: r

/-- Python `line.rstrip('\n\r')`. -/
def rstripNL (l : List Char) : List Char :=
  (l.reverse.dropWhile (fun c => c == '\n' || c == '\r')).reverse

/-- The guard `len(line)>0 and line[0]=='>'` used by both fasta loops. -/
def isHeaderLine (line : String) : Bool :=
  match line.data with
  | [] => false
  | c :: _ => c == '>'

/-- Header parsing of `buildPR2Tree`:
`names=line[1:].rstrip('\n\r').split("|"); hitid=names.pop(0)`.
`none` for a non-header line (the `pop(0)` itself cannot fail because
python `split` never returns an empty list; the `[]` branch below is
unreachable for the same reason). -/
def parseHeaderLine (line : String) : Option (String × List String) :=
  if isHeaderLine line then
    match splitListOn '|' (rstripNL (line.data.drop 1)) with
    | [] => none
    | h :: t => some (ofChars h, t.map ofChars)
  else none

/-- The module-level rank ladder `ranks` of the script (used by
`buildPR2Tree`; positions of the `|`-separated names are paired with these
by `zip(ranks,names)`). -/
def ranks : List String :=
  ["domain", "kingdom", "phylum", "class", "order", "family", "genus",
   "species"]

/-- The mutable state of the `buildPR2Tree` header loop: the fresh-id
counter `nextId`, the node arena (`prTree`; index 0 is the synthetic root
`TaxNode('root',None,None)`), the per-rank name lookup `taxaByNameAndRank`
with its per-rank dicts flattened into one association list keyed by
(rank, name) pairs, and the hitid→taxid map `taxMap`. -/
structure PR2St where
  nextId : Nat
  arena : List Node
  taxaByNameAndRank : List ((String × String) × Nat)
  taxMap : List (String × PId)
deriving DecidableEq, Repr

/-- The synthetic root `TaxNode('root',None,None)` of `buildPR2Tree`. -/
def rootNode0 : Node :=
  { id := PId.str "root", name := "root", rank := none, ncbi_tax_id := none,
    parent := none, children := [] }

def initPR2 (idStart : Nat) : PR2St :=
  { nextId := idStart, arena := [rootNode0], taxaByNameAndRank := [],
    taxMap := [] }

/-- `newNode.setParent(lastNode)`: append `c` to the children of node `i`. -/
def addChild (ar : List Node) (i c : Nat) : List Node :=
  ar.set i
    { ar.getD i dNode with children := (ar.getD i dNode).children ++ [c] }

/-- The inner `for rank, taxName in zip(ranks,names)` loop of
`buildPR2Tree`: look the name up in `taxaByNameAndRank[rank]`; descend into
the found node, or else create a fresh node (`nextId+=1`), link it as a
child of `lastNode`, and register it in the per-rank table.  Returns the
final `lastNode` index alongside the updated state. -/
def insertPR2 (st : PR2St) (lastNode : Nat) :
    List (String × String) → PR2St × Nat
  | [] => (st, lastNode)
  | (rank, taxName) :: rest =>
    match dictGet st.taxaByNameAndRank (rank, taxName) with
    | some j => insertPR2 st j rest
    | none =>
      insertPR2
        { nextId := st.nextId + 1,
          arena :=
            addChild
              (st.arena ++
                [{ id := PId.num (st.nextId + 1), name := taxName,
                   rank := some rank, ncbi_tax_id := none,
                   parent := some lastNode, children := [] }])
              lastNode st.arena.length,
          taxaByNameAndRank :=
            st.taxaByNameAndRank ++ [((rank, taxName), st.arena.length)],
          taxMap := st.taxMap }
        st.arena.length rest

/-- One header of `buildPR2Tree`: run the insertion loop from the root and
record `taxMap[hitid]=lastNode.id`. -/
def processHeader (st : PR2St) (hitid : String) (names : List String) :
    PR2St :=
  let p := insertPR2 st 0 (ranks.zip names)
  { p.1 with taxMap := dictUpd p.1.taxMap hitid (idAt p.1.arena p.2) }

def processHeaders (st : PR2St) : List (String × List String) → PR2St
  | [] => st
  | (h, names) :: t => processHeaders (processHeader st h names) t

/-- One line of the `buildPR2Tree` fasta loop (non-header lines only
matter for the optional fasta rewriting, which changes no state). -/
def processLine (st : PR2St) (line : String) : PR2St :=
  match parseHeaderLine line with
  | some hn => processHeader st hn.1 hn.2
  | none => st

def processLines (st : PR2St) : List String → PR2St
  | [] => st
  | l :: t => processLines (processLine st l) t

/-- `buildPR2Tree`: process every line, warn when the synthetic root does
not have exactly one child (the boolean), then report
`rootNode=rootNode.children[0]`.  The unguarded `children[0]` raises
`IndexError` when the root has no children; that crash is modelled by
`none`. -/
def buildPR2Tree (idStart : Nat) (lines : List String) :
    Bool × Option (Nat × PR2St) :=
  let st := processLines (initPR2 idStart) lines
  (((childrenAt st.arena 0).length != 1),
   match childrenAt st.arena 0 with
   | [] => none
   | c :: _ => some (c, st))

/-- Names along the path from the synthetic root down to node `i`
(excluding the root itself), read off by walking `parent` links; the fuel
argument only forces termination. -/
def pathNamesTo (ar : List Node) : Nat → Nat → List String
  | 0, _ => []
  | fuel + 1, i =>
    match parentAt ar i with
    | none => []
    | some p => pathNamesTo ar fuel p ++ [nameAt ar i]

def pathFromRoot (ar : List Node) (i : Nat) : List String :=
  pathNamesTo ar ar.length i

/-- The non-empty prefixes of one lineage path. -/
def prefixesOf (names : List String) : List (List String) :=
  (List.range names.length).map (fun k => names.take (k + 1))

/-- Claim C10: a PR2 fasta whose only header contributes no lineage names
leaves the synthetic root with zero children; `rootNode.children[0]` then
fails with an out-of-range indexing error (modelled by `none`) after the
multiple/zero-children warning fired, instead of returning a
(root, record-map) pair. -/
theorem pr2_zero_children_crash :
    buildPR2Tree 0 [">X"] = (true, none) ∧
    (processLines (initPR2 0) [">X"]).taxMap = [("X", PId.str "root")] := by
  decide

/-- Two-header PR2 run exhibiting the cross-parent reuse of
`taxaByNameAndRank`: the second header's kingdom-level name "X" is found in
the global per-rank table and reused although it is a child of "P", not of
"Q". -/
def pr2CEx : PR2St :=
  processHeaders (initPR2 0) [("h1", ["P", "X"]), ("h2", ["Q", "X"])]

/-- Claim C1, counterexample: after inserting the paths ["P","X"] and
["Q","X"], the node returned for the second lineage is the node with id 2
whose path from the root reads ["P","X"], not ["Q","X"]; moreover the tree
holds 3 non-root nodes while the inserted paths have 4 distinct non-empty
prefixes, so the claimed one-to-one correspondence fails. -/
theorem pr2_child_lookup_counterexample :
    dictGet pr2CEx.taxMap "h2" = some (PId.num 2) ∧
    idAt pr2CEx.arena 2 = PId.num 2 ∧
    pathFromRoot pr2CEx.arena 2 = ["P", "X"] ∧
    (["P", "X"] : List String) ≠ ["Q", "X"] ∧
    pr2CEx.arena.length = 3 + 1 ∧
    (([("h1", ["P", "X"]), ("h2", ["Q", "X"])] :
        List (String × List String)).map
          (fun h => prefixesOf h.2)).flatten.toFinset.card = 4 := by
  decide

/-- Python `s.strip()` for whitespace, over the character list. -/
def stripWs (l : List Char) : List Char :=
  ((l.dropWhile Char.isWhitespace).reverse.dropWhile Char.isWhitespace).reverse

/-- Python `s.strip().split(None,1)` restricted to the two-field success
case, as in `(read,desc) = line[1:].strip().split(None,1)` of
`getOrgsFromSilvaFasta`: the first whitespace-free token and the remainder
after the whitespace run; `none` when fewer than two fields come back and
the tuple unpacking would raise `ValueError`. -/
def splitNone1 (l : List Char) : Option (String × String) :=
  if ((stripWs l).drop
        ((stripWs l).takeWhile (fun c => !c.isWhitespace)).length).dropWhile
      Char.isWhitespace = [] then
    none
  else
    some (ofChars ((stripWs l).takeWhile (fun c => !c.isWhitespace)),
      ofChars (((stripWs l).drop
        ((stripWs l).takeWhile (fun c => !c.isWhitespace)).length).dropWhile
          Char.isWhitespace))

/-- `line[1:].strip().split(None,1)` of `getOrgsFromSilvaFasta`. -/
def parseSilvaHeader (line : String) : Option (String × String) :=
  splitNone1 (line.data.drop 1)

/-- `getOrgsFromSilvaFasta`: yield `(read,desc)` for every `>` line of the
fasta file.  A header whose `split(None,1)` produces fewer than two fields
makes the tuple unpacking raise `ValueError`, which nothing catches, so
the whole run terminates: that is modelled by `Except.error` carrying the
offending line. -/
def getOrgsFromSilvaFasta :
    List String → Except String (List (String × String))
  | [] => Except.ok []
  | l :: ls =>
    if isHeaderLine l then
      match parseSilvaHeader l with
      | some p => (getOrgsFromSilvaFasta ls).map (fun r => p :: r)
      | none => Except.error l
    else getOrgsFromSilvaFasta ls

/-- A line is harmless for `getOrgsFromSilvaFasta`: either not a header,
or a header that splits into a record id and a description. -/
def headerParses (l : String) : Bool :=
  !(isHeaderLine l) || (parseSilvaHeader l).isSome

/-- Claim C5, counterexample: the header `">B"` has no description field,
so `getOrgsFromSilvaFasta` raises an uncaught `ValueError` there
(modelled by `Except.error ">B"`); the remaining line `">C e"` is never
processed, instead of the bad line being logged, skipped, and the run
continuing to yield the other two records. -/
theorem getorgs_malformed_header_counterexample :
    getOrgsFromSilvaFasta [">A d", ">B", ">C e"] = Except.error ">B" ∧
    (Except.error ">B" :
        Except String (List (String × String))) ≠
      Except.ok [("A", "d"), ("C", "e")] :=
  ⟨rfl, fun h => Except.noConfusion h⟩

/-- Claim C5, amended: a `>` header line that cannot be split into a record
id and a description makes `getOrgsFromSilvaFasta` raise an uncaught
`ValueError` that terminates the run at that line: headers before it are
parsed, but the failing line is not skipped and no later line is
processed. -/
theorem getorgs_malformed_header_amended :
    ∀ (good : List String) (bad : String) (rest : List String),
      good.all headerParses = true →
      isHeaderLine bad = true →
      parseSilvaHeader bad = none →
      getOrgsFromSilvaFasta (good ++ bad :: rest) = Except.error bad := by
  intro good
  induction good with
  | nil =>
    intro bad rest _ hbh hbp
    simp only [List.nil_append, getOrgsFromSilvaFasta, hbh, hbp, if_true]
  | cons l t ih =>
    intro bad rest hall hbh hbp
    rw [List.all_cons, Bool.and_eq_true] at hall
    by_cases hh : isHeaderLine l = true
    · have hs : (parseSilvaHeader l).isSome = true := by
        have hl := hall.1
        unfold headerParses at hl
        rw [hh] at hl
        simpa using hl
      obtain ⟨p, hp⟩ := Option.isSome_iff_exists.mp hs
      simp only [List.cons_append, getOrgsFromSilvaFasta, hh, hp, if_true,
        List.append_eq]
      rw [ih bad rest hall.2 hbh hbp]
      rfl
    · simp only [List.cons_append, getOrgsFromSilvaFasta]
      rw [if_neg hh]
      exact ih bad rest hall.2 hbh hbp

/-- Witness for `getorgs_malformed_header_amended` at the concrete input
`[">A d"] ++ ">B" :: [">C e"]`. -/
theorem getorgs_malformed_header_amended_witness :
    [">A d"].all headerParses = true ∧
    isHeaderLine ">B" = true ∧
    parseSilvaHeader ">B" = none ∧
    getOrgsFromSilvaFasta ([">A d"] ++ ">B" :: [">C e"]) =
      Except.error ">B" :=
  ⟨by decide, by decide, by decide,
   getorgs_malformed_header_amended [">A d"] ">B" [">C e"] (by decide)
     (by decide) (by decide)⟩

theorem map_field_set {β : Type} (f : Node → β) :
    ∀ (l : List Node) (i : Nat) (nd : Node),
      f nd = f (l.getD i dNode) →
      (l.set i nd).map f = l.map f
  | [], _, _, _ => rfl
  | a :: t, 0, nd, h => by
      rw [List.getD_cons_zero] at h
      simp [h]
  | a :: t, i + 1, nd, h => by
      rw [List.getD_cons_succ] at h
      simp only [List.set_cons_succ, List.map_cons]
      rw [map_field_set f t i nd h]

theorem length_addChild (ar : List Node) (i c : Nat) :
    (addChild ar i c).length = ar.length := by
  unfold addChild
  exact List.length_set ar ..

theorem map_id_addChild (ar : List Node) (i c : Nat) :
    (addChild ar i c).map (fun nd => nd.id) = ar.map (fun nd => nd.id) := by
  unfold addChild
  exact map_field_set _ ar i _ rfl

/-- Sequential-id invariant of the PR2 builder: the arena ids read, in
creation order, the root's string id followed by
`idStart+1, idStart+2, …`, and the counter stands at the last assigned
id. -/
def IdsOK (idStart : Nat) (st : PR2St) : Prop :=
  st.arena.map (fun nd => nd.id) =
    PId.str "root" ::
      (List.range (st.arena.length - 1)).map
        (fun k => PId.num (idStart + (k + 1))) ∧
  st.nextId = idStart + (st.arena.length - 1)

theorem idsOK_init (idStart : Nat) : IdsOK idStart (initPR2 idStart) :=
  ⟨rfl, rfl⟩

theorem idsOK_insertPR2 (idStart : Nat) :
    ∀ (pl : List (String × String)) (st : PR2St) (cur : Nat),
      IdsOK idStart st → IdsOK idStart (insertPR2 st cur pl).1 := by
  intro pl
  induction pl with
  | nil => intro st cur h; exact h
  | cons p rest ih =>
    intro st cur h
    obtain ⟨p1, p2⟩ := p
    unfold insertPR2
    cases hd : dictGet st.taxaByNameAndRank (p1, p2) with
    | some j => exact ih st j h
    | none =>
      apply ih
      obtain ⟨hmap, hnext⟩ := h
      have hne : st.arena ≠ [] := by
        intro he
        rw [he] at hmap
        exact List.noConfusion hmap
      have hlen : 0 < st.arena.length := List.length_pos.mpr hne
      have h1 : st.arena.length - 1 + 1 = st.arena.length :=
        Nat.succ_pred_eq_of_pos hlen
      constructor
      · rw [map_id_addChild, List.map_append, hmap, length_addChild,
          List.length_append]
        simp only [List.map_cons, List.map_nil, List.length_cons,
          List.length_nil, List.cons_append]
        have h2 : st.arena.length + (0 + 1) - 1 = st.arena.length := by omega
        rw [h2]
        have h3 :
            (List.range st.arena.length).map
                (fun k => PId.num (idStart + (k + 1))) =
              (List.range (st.arena.length - 1)).map
                  (fun k => PId.num (idStart + (k + 1))) ++
                [PId.num (idStart + (st.arena.length - 1 + 1))] := by
          conv_lhs => rw [← h1]
          rw [List.range_succ, List.map_append]
          rfl
        rw [h3, hnext, Nat.add_assoc]
      · rw [length_addChild, List.length_append]
        simp only [List.length_cons, List.length_nil]
        omega

theorem idsOK_processHeader (idStart : Nat) (st : PR2St) (hitid : String)
    (names : List String) (h : IdsOK idStart st) :
    IdsOK idStart (processHeader st hitid names) :=
  idsOK_insertPR2 idStart (ranks.zip names) st 0 h

theorem idsOK_processHeaders (idStart : Nat) :
    ∀ (hs : List (String × List String)) (st : PR2St),
      IdsOK idStart st → IdsOK idStart (processHeaders st hs) := by
  intro hs
  induction hs with
  | nil => intro st h; exact h
  | cons a t ih =>
    intro st h
    obtain ⟨a1, a2⟩ := a
    exact ih _ (idsOK_processHeader idStart st a1 a2 h)

theorem idsOK_root_id (idStart : Nat) (st : PR2St) (h : IdsOK idStart st) :
    idAt st.arena 0 = PId.str "root" := by
  obtain ⟨hmap, _⟩ := h
  cases har : st.arena with
  | nil => rw [har] at hmap; exact List.noConfusion hmap
  | cons nd t =>
    rw [har] at hmap
    simp only [List.map_cons] at hmap
    have := (List.cons.injEq _ _ _ _).mp hmap
    unfold idAt
    rw [List.getD_cons_zero]
    exact this.1

theorem dictGet_append_of_isSome {α β : Type} [DecidableEq α] :
    ∀ (m l : List (α × β)) (k : α),
      (dictGet m k).isSome = true → dictGet (m ++ l) k = dictGet m k
  | [], _, _, h => by simp [dictGet] at h
  | (k2, v) :: t, l, k, h => by
      by_cases hk : k = k2
      · simp only [List.cons_append, dictGet, if_pos hk]
      · simp only [dictGet, if_neg hk] at h
        simp only [List.cons_append, dictGet, if_neg hk]
        exact dictGet_append_of_isSome t l k h

theorem dictGet_isSome_append {α β : Type} [DecidableEq α]
    (m l : List (α × β)) (k : α) (h : (dictGet m k).isSome = true) :
    (dictGet (m ++ l) k).isSome = true := by
  rw [dictGet_append_of_isSome m l k h]
  exact h

theorem dictGet_append_of_none {α β : Type} [DecidableEq α] :
    ∀ (m l : List (α × β)) (k : α), dictGet m k = none →
      dictGet (m ++ l) k = dictGet l k
  | [], _, _, _ => rfl
  | (k2, v) :: t, l, k, h => by
      by_cases hk : k = k2
      · simp only [dictGet, if_pos hk] at h
        exact Option.noConfusion h
      · simp only [dictGet, if_neg hk] at h
        simp only [List.cons_append, dictGet, if_neg hk]
        exact dictGet_append_of_none t l k h

theorem dictGet_isSome_iff_mem_keys {α β : Type} [DecidableEq α] :
    ∀ (m : List (α × β)) (k : α),
      (dictGet m k).isSome = true ↔ k ∈ m.map Prod.fst
  | [], k => by simp [dictGet]
  | (k2, v) :: t, k => by
      simp only [dictGet, List.map_cons, List.mem_cons]
      by_cases hk : k = k2
      · simp [hk]
      · rw [if_neg hk]
        simp [hk, dictGet_isSome_iff_mem_keys t k]

theorem insertPR2_table_mono :
    ∀ (pl : List (String × String)) (st : PR2St) (cur : Nat)
      (k : String × String),
      (dictGet st.taxaByNameAndRank k).isSome = true →
      (dictGet ((insertPR2 st cur pl).1).taxaByNameAndRank k).isSome =
        true := by
  intro pl
  induction pl with
  | nil => intro st cur k h; exact h
  | cons p0 rest ih =>
    intro st cur k h
    obtain ⟨q1, q2⟩ := p0
    unfold insertPR2
    cases hd : dictGet st.taxaByNameAndRank (q1, q2) with
    | some j => exact ih st j k h
    | none =>
      apply ih
      exact dictGet_isSome_append _ _ k h

theorem insertPR2_pairs_present :
    ∀ (pl : List (String × String)) (st : PR2St) (cur : Nat),
      ∀ p ∈ pl,
        (dictGet ((insertPR2 st cur pl).1).taxaByNameAndRank p).isSome =
          true := by
  intro pl
  induction pl with
  | nil => intro st cur p hp; exact absurd hp (List.not_mem_nil p)
  | cons p0 rest ih =>
    intro st cur p hp
    obtain ⟨q1, q2⟩ := p0
    unfold insertPR2
    cases hd : dictGet st.taxaByNameAndRank (q1, q2) with
    | some j =>
      rcases List.mem_cons.mp hp with rfl | hp2
      · exact insertPR2_table_mono rest st j (q1, q2) (by rw [hd]; rfl)
      · exact ih st j p hp2
    | none =>
      rcases List.mem_cons.mp hp with rfl | hp2
      · apply insertPR2_table_mono
        show (dictGet (st.taxaByNameAndRank ++ [((q1, q2), st.arena.length)])
            (q1, q2)).isSome = true
        rw [dictGet_append_of_none _ _ _ hd]
        simp [dictGet]
      · exact ih _ st.arena.length p hp2

theorem insertPR2_noop :
    ∀ (pl : List (String × String)) (st : PR2St) (cur : Nat),
      (∀ p ∈ pl, (dictGet st.taxaByNameAndRank p).isSome = true) →
      (insertPR2 st cur pl).1 = st := by
  intro pl
  induction pl with
  | nil => intro st cur _; rfl
  | cons p0 rest ih =>
    intro st cur h
    obtain ⟨q1, q2⟩ := p0
    have h0 := h (q1, q2) (List.mem_cons_self _ _)
    obtain ⟨j, hj⟩ := Option.isSome_iff_exists.mp h0
    unfold insertPR2
    rw [hj]
    exact ih st j (fun p hp => h p (List.mem_cons_of_mem _ hp))

theorem processHeaders_table_mono :
    ∀ (hs : List (String × List String)) (st : PR2St) (k : String × String),
      (dictGet st.taxaByNameAndRank k).isSome = true →
      (dictGet (processHeaders st hs).taxaByNameAndRank k).isSome = true := by
  intro hs
  induction hs with
  | nil => intro st k h; exact h
  | cons a t ih =>
    intro st k h
    obtain ⟨a1, a2⟩ := a
    exact ih _ k (insertPR2_table_mono (ranks.zip a2) st 0 k h)

theorem processHeaders_pairs_present :
    ∀ (hs : List (String × List String)) (st : PR2St)
      (h2 : String × List String), h2 ∈ hs →
      ∀ p ∈ ranks.zip h2.2,
        (dictGet (processHeaders st hs).taxaByNameAndRank p).isSome =
          true := by
  intro hs
  induction hs with
  | nil => intro st h2 hmem; exact absurd hmem (List.not_mem_nil h2)
  | cons a t ih =>
    intro st h2 hmem p hp
    obtain ⟨a1, a2⟩ := a
    rcases List.mem_cons.mp hmem with rfl | hmem2
    · exact processHeaders_table_mono t _ p
        (insertPR2_pairs_present (ranks.zip a2) st 0 p hp)
    · exact ih _ h2 hmem2 p hp

theorem mem_zip_take {α β : Type} :
    ∀ (l1 : List α) (l2 : List β) (k : Nat) (p : α × β),
      p ∈ l1.zip (l2.take k) → p ∈ l1.zip l2
  | [], l2, k, p, h => by simp at h
  | a :: t1, [], k, p, h => by simp at h
  | a :: t1, b :: t2, 0, p, h => by simp at h
  | a :: t1, b :: t2, k + 1, p, h => by
      simp only [List.take_succ_cons, List.zip_cons_cons, List.mem_cons]
        at h ⊢
      rcases h with h | h
      · exact Or.inl h
      · exact Or.inr (mem_zip_take t1 t2 k p h)

/-- Claim C6: with `idStart=100` the arena ids in creation order are the
root's id followed by 101, 102, …, so the k-th distinct node created after
the root receives id `100+k`; and re-inserting a path, or a prefix of a
path, that was already inserted leaves the arena and the id counter
unchanged: no new id is consumed. -/
theorem pr2_id_monotonicity (hs : List (String × List String)) :
    (processHeaders (initPR2 100) hs).arena.map (fun nd => nd.id) =
      PId.str "root" ::
        (List.range
            ((processHeaders (initPR2 100) hs).arena.length - 1)).map
          (fun k => PId.num (100 + (k + 1))) ∧
    ∀ (h2 : String × List String) (k : Nat) (hitid : String),
      h2 ∈ hs →
      (processHeader (processHeaders (initPR2 100) hs) hitid
          (h2.2.take k)).arena =
        (processHeaders (initPR2 100) hs).arena ∧
      (processHeader (processHeaders (initPR2 100) hs) hitid
          (h2.2.take k)).nextId =
        (processHeaders (initPR2 100) hs).nextId := by
  constructor
  · exact (idsOK_processHeaders 100 hs _ (idsOK_init 100)).1
  · intro h2 k hitid hmem
    have hpres : ∀ p ∈ ranks.zip (h2.2.take k),
        (dictGet
            (processHeaders (initPR2 100) hs).taxaByNameAndRank p).isSome =
          true := by
      intro p hp
      exact processHeaders_pairs_present hs (initPR2 100) h2 hmem p
        (mem_zip_take ranks h2.2 k p hp)
    have hnoop := insertPR2_noop (ranks.zip (h2.2.take k))
      (processHeaders (initPR2 100) hs) 0 hpres
    constructor
    · show ((insertPR2 (processHeaders (initPR2 100) hs) 0
          (ranks.zip (h2.2.take k))).1).arena = _
      rw [hnoop]
    · show ((insertPR2 (processHeaders (initPR2 100) hs) 0
          (ranks.zip (h2.2.take k))).1).nextId = _
      rw [hnoop]

/-- Witness for `pr2_id_monotonicity`: re-inserting the prefix ["X"] of the
already-inserted path ["X","Y"] leaves the arena unchanged. -/
theorem pr2_id_monotonicity_witness :
    (("A", ["X", "Y"]) ∈ [(("A" : String), (["X", "Y"] : List String))]) ∧
    (processHeader (processHeaders (initPR2 100) [("A", ["X", "Y"])]) "B"
        ((("A", ["X", "Y"]) : String × List String).2.take 1)).arena =
      (processHeaders (initPR2 100) [("A", ["X", "Y"])]).arena :=
  ⟨by decide,
   ((pr2_id_monotonicity [("A", ["X", "Y"])]).2 ("A", ["X", "Y"]) 1 "B"
      (by decide)).1⟩

/-- Claim C9: a PR2 header line carrying a record id and no lineage names
makes the insertion loop return the synthetic root itself (index 0, second
conjunct): the state is unchanged except that `taxMap` maps the record id
to the root's own id `'root'`; no node is created. -/
theorem pr2_empty_path_returns_root (idStart : Nat)
    (hs : List (String × List String)) (line hitid : String)
    (hp : parseHeaderLine line = some (hitid, [])) :
    processLine (processHeaders (initPR2 idStart) hs) line =
      { processHeaders (initPR2 idStart) hs with
        taxMap :=
          dictUpd (processHeaders (initPR2 idStart) hs).taxMap hitid
            (PId.str "root") } ∧
    (insertPR2 (processHeaders (initPR2 idStart) hs) 0
        (ranks.zip ([] : List String))).2 = 0 := by
  have hid : idAt (processHeaders (initPR2 idStart) hs).arena 0 =
      PId.str "root" :=
    idsOK_root_id idStart _
      (idsOK_processHeaders idStart hs _ (idsOK_init idStart))
  constructor
  · unfold processLine
    rw [hp]
    show ({ processHeaders (initPR2 idStart) hs with
        taxMap :=
          dictUpd (processHeaders (initPR2 idStart) hs).taxMap hitid
            (idAt (processHeaders (initPR2 idStart) hs).arena 0) } :
        PR2St) = _
    rw [hid]
  · rfl

/-- Witness for `pr2_empty_path_returns_root` at the concrete header line
`">X"` over the empty prior state. -/
theorem pr2_empty_path_returns_root_witness :
    parseHeaderLine ">X" = some ("X", []) ∧
    processLine (processHeaders (initPR2 7) []) ">X" =
      { processHeaders (initPR2 7) [] with
        taxMap :=
          dictUpd (processHeaders (initPR2 7) []).taxMap "X"
            (PId.str "root") } :=
  ⟨by decide, (pr2_empty_path_returns_root 7 [] ">X" "X" (by decide)).1⟩

/-- Table invariant of the PR2 builder: the (rank, name) keys of
`taxaByNameAndRank` are exactly the pairs seen so far (without repetition),
and the arena holds one node per key plus the synthetic root. -/
def TableOK (st : PR2St) (seen : List (String × String)) : Prop :=
  (st.taxaByNameAndRank.map Prod.fst).Nodup ∧
  (∀ p, p ∈ st.taxaByNameAndRank.map Prod.fst ↔ p ∈ seen) ∧
  st.arena.length = st.taxaByNameAndRank.length + 1

theorem tableOK_init (idStart : Nat) : TableOK (initPR2 idStart) [] :=
  ⟨List.nodup_nil, fun _ => Iff.rfl, rfl⟩

theorem tableOK_congr (st : PR2St) (s1 s2 : List (String × String))
    (h : TableOK st s1) (he : ∀ p, p ∈ s1 ↔ p ∈ s2) : TableOK st s2 :=
  ⟨h.1, fun p => (h.2.1 p).trans (he p), h.2.2⟩

theorem tableOK_extend (st : PR2St) (seen : List (String × String))
    (q : String × String) (nd : Node) (cur : Nat) (h : TableOK st seen)
    (hq : q ∉ st.taxaByNameAndRank.map Prod.fst) :
    TableOK
      { nextId := st.nextId + 1,
        arena := addChild (st.arena ++ [nd]) cur st.arena.length,
        taxaByNameAndRank :=
          st.taxaByNameAndRank ++ [(q, st.arena.length)],
        taxMap := st.taxMap }
      (seen ++ [q]) := by
  refine ⟨?_, ?_, ?_⟩
  · show ((st.taxaByNameAndRank ++ [(q, st.arena.length)]).map
      Prod.fst).Nodup
    rw [List.map_append]
    refine List.nodup_append.mpr ⟨h.1, by simp, ?_⟩
    intro a ha hb
    simp only [List.map_cons, List.map_nil, List.mem_singleton] at hb
    subst hb
    exact hq ha
  · intro p
    show p ∈ (st.taxaByNameAndRank ++ [(q, st.arena.length)]).map
      Prod.fst ↔ _
    rw [List.map_append, List.mem_append, List.mem_append]
    simp only [List.map_cons, List.map_nil, List.mem_singleton]
    rw [h.2.1 p]
  · show (addChild (st.arena ++ [nd]) cur st.arena.length).length = _
    rw [length_addChild, List.length_append, List.length_append]
    simp only [List.length_cons, List.length_nil]
    have := h.2.2
    omega

theorem tableOK_insertPR2 :
    ∀ (pl : List (String × String)) (st : PR2St) (cur : Nat)
      (seen : List (String × String)),
      TableOK st seen → TableOK (insertPR2 st cur pl).1 (seen ++ pl) := by
  intro pl
  induction pl with
  | nil => intro st cur seen h; simpa using h
  | cons p0 rest ih =>
    intro st cur seen h
    obtain ⟨q1, q2⟩ := p0
    unfold insertPR2
    cases hd : dictGet st.taxaByNameAndRank (q1, q2) with
    | some j =>
      have hmemk : (q1, q2) ∈ st.taxaByNameAndRank.map Prod.fst :=
        (dictGet_isSome_iff_mem_keys _ _).mp (by rw [hd]; rfl)
      have hseen : (q1, q2) ∈ seen := (h.2.1 _).mp hmemk
      have h2 : TableOK st (seen ++ [(q1, q2)]) := by
        refine tableOK_congr st seen _ h ?_
        intro p
        simp only [List.mem_append, List.mem_singleton]
        constructor
        · exact fun hp => Or.inl hp
        · rintro (hp | rfl)
          · exact hp
          · exact hseen
      have h3 := ih st j _ h2
      rw [List.append_assoc, List.singleton_append] at h3
      exact h3
    | none =>
      have hnotk : (q1, q2) ∉ st.taxaByNameAndRank.map Prod.fst := by
        intro hm
        have hsome :=
          (dictGet_isSome_iff_mem_keys st.taxaByNameAndRank (q1, q2)).mpr hm
        rw [hd] at hsome
        exact Bool.noConfusion hsome
      have h3 := ih
        { nextId := st.nextId + 1,
          arena :=
            addChild
              (st.arena ++
                [{ id := PId.num (st.nextId + 1), name := q2,
                   rank := some q1, ncbi_tax_id := none,
                   parent := some cur, children := [] }])
              cur st.arena.length,
          taxaByNameAndRank :=
            st.taxaByNameAndRank ++ [((q1, q2), st.arena.length)],
          taxMap := st.taxMap }
        st.arena.length (seen ++ [(q1, q2)])
        (tableOK_extend st seen (q1, q2)
          { id := PId.num (st.nextId + 1), name := q2, rank := some q1,
            ncbi_tax_id := none, parent := some cur, children := [] }
          cur h hnotk)
      rw [List.append_assoc, List.singleton_append] at h3
      exact h3

theorem tableOK_processHeaders :
    ∀ (hs : List (String × List String)) (st : PR2St)
      (seen : List (String × String)),
      TableOK st seen →
      TableOK (processHeaders st hs)
        (seen ++ (hs.map (fun h2 => ranks.zip h2.2)).flatten) := by
  intro hs
  induction hs with
  | nil => intro st seen h; simpa using h
  | cons a t ih =>
    intro st seen h
    obtain ⟨a1, a2⟩ := a
    have h1 : TableOK (processHeader st a1 a2) (seen ++ ranks.zip a2) :=
      tableOK_insertPR2 (ranks.zip a2) st 0 seen h
    have h2 := ih (processHeader st a1 a2) _ h1
    rw [List.append_assoc] at h2
    simpa using h2

/-- Claim C1, amended: `buildPR2Tree` looks names up in the global
per-rank table `taxaByNameAndRank` rather than in the current node's
children, so after all insertions the non-root nodes are in one-to-one
correspondence with the distinct (rank, name) pairs occurring in the
inserted paths (each path truncated to the eight-level rank ladder by
`zip(ranks,names)`), not with the distinct non-empty path prefixes; when a
name recurs at the same rank under a different parent, the existing node
is reused and the path from the root to the returned node can differ from
the inserted lineage. -/
theorem pr2_insert_distinct_pairs (idStart : Nat)
    (hs : List (String × List String)) :
    (processHeaders (initPR2 idStart) hs).arena.length =
      ((hs.map (fun h2 => ranks.zip h2.2)).flatten).toFinset.card + 1 := by
  have h := tableOK_processHeaders hs (initPR2 idStart) []
    (tableOK_init idStart)
  rw [List.nil_append] at h
  obtain ⟨hnd, hiff, hlen⟩ := h
  rw [hlen]
  have h4 : (processHeaders (initPR2 idStart) hs).taxaByNameAndRank.length =
      ((hs.map (fun h2 => ranks.zip h2.2)).flatten).toFinset.card := by
    rw [← List.length_map
        ((processHeaders (initPR2 idStart) hs).taxaByNameAndRank) Prod.fst,
      ← List.toFinset_card_of_nodup hnd]
    congr 1
    apply Finset.ext
    intro a
    rw [List.mem_toFinset, List.mem_toFinset]
    exact hiff a
  rw [h4]

/-- Python `lineage.strip("; ")` as applied to each table lineage in
`buildSilvaTree`. -/
def stripSemiSpace (s : String) : String :=
  ofChars (((s.data.dropWhile (fun c => c == ';' || c == ' ')).reverse.dropWhile
    (fun c => c == ';' || c == ' ')).reverse)

/-- First child of `cur` whose name is `nm`, in insertion order. -/
def findChild (ar : List Node) (cur : Nat) (nm : String) : Option Nat :=
  (childrenAt ar cur).find? (fun c => nameAt ar c == nm)

/-- Modelled from the spec: the insert algorithm of the LineageTree
component (spec §4.1), which is the body of
`edl.silva.SilvaTaxNode.addToTreeFromString` (not under src/): start at
the synthetic root and, for each name in order, descend into the child of
the current node carrying that name, creating and linking a missing child;
the node of the final element is returned.  A node created here carries a
non-integer placeholder id, to be resolved by the clean-up pass of
`buildSilvaTree`. -/
def insertSilvaPath : List Node → Nat → List String → List Node × Nat
  | ar, cur, [] => (ar, cur)
  | ar, cur, nm :: rest =>
    match findChild ar cur nm with
    | some j => insertSilvaPath ar j rest
    | none =>
      insertSilvaPath
        (addChild
          (ar ++
            [{ id := PId.str nm, name := nm, rank := none,
               ncbi_tax_id := none, parent := some cur, children := [] }])
          cur ar.length)
        ar.length rest

/-- Modelled from the spec: `edl.silva.SilvaTaxNode.addToTreeFromString`
takes the lineage as one string; the spec says a lineage path is "supplied
as a delimited string split on a fixed separator", `;` for Silva. -/
def addToTreeFromString (lineage : String) (ar : List Node) :
    List Node × Nat :=
  insertSilvaPath ar 0 ((splitListOn ';' lineage.data).map ofChars)

/-- One row of the Silva taxonomy table: lineage, rank, external taxid
(the columns `parseMapFile` reads). -/
structure SilvaRow where
  lineage : String
  rank : String
  taxid : Nat
deriving DecidableEq, Repr

/-- Modelled from the spec: `parseMapFile` (not under src/) reads the
table into dicts keyed by the lineage column, so duplicate lineages keep
their first position with the last value (python dict semantics);
`rankMap` and `silvaTaxidMap` share this key sequence, combined here into
one association list. -/
def dictItems (rows : List SilvaRow) : List (String × String × Nat) :=
  rows.foldl (fun d r => dictUpd d r.lineage (r.rank, r.taxid)) []

/-- The external ids of the table pass:
`silvaTaxidMap.values()`, over which `maxTaxid` is seeded. -/
def silvaExtIds (rows : List SilvaRow) : List Nat :=
  (dictItems rows).map (fun kv => kv.2.2)

/-- `max` of a python list of ints (the empty case raises `ValueError` in
python and is guarded separately by the caller). -/
def listMax : List Nat → Nat
  | [] => 0
  | a :: t => max a (listMax t)

/-- `node.rank = rankMapping.get(rank,rank); node.ncbi_tax_id = silvaTaxidMap[lineage]`. -/
def setRankNcbi (ar : List Node) (j : Nat) (rk : String) (tid : Nat) :
    List Node :=
  ar.set j
    { ar.getD j dNode with rank := some rk, ncbi_tax_id := some tid }

/-- The first loop of `buildSilvaTree`: for every table entry, insert the
stripped lineage and set the resulting node's rank (through `rankMapping`)
and its `ncbi_tax_id`. -/
def silvaTablePass : List Node → List (String × String × Nat) → List Node
  | ar, [] => ar
  | ar, (lineage, rk, tid) :: rest =>
    match addToTreeFromString (stripSemiSpace lineage) ar with
    | (ar2, j) => silvaTablePass (setRankNcbi ar2 j (rankMappingGet rk) tid) rest

/-- The second loop of `buildSilvaTree`: insert each fasta lineage and
remember the returned node (by arena index) for the record id. -/
def silvaFastaPass : List Node → List (String × Nat) →
    List (String × String) → List Node × List (String × Nat)
  | ar, tm, [] => (ar, tm)
  | ar, tm, (hitid, lineage) :: rest =>
    match addToTreeFromString lineage ar with
    | (ar2, j) => silvaFastaPass ar2 (dictUpd tm hitid j) rest

/-- Modelled from the spec: `edl.util.treeGenerator` (not under src/), a
lazy parent-before-children traversal of all nodes reachable from a given
root, embedded as a fuel-bounded pre-order walk with children in insertion
order. -/
def preorderAux (ar : List Node) : Nat → Nat → List Nat
  | 0, _ => []
  | fuel + 1, i =>
      i :: ((childrenAt ar i).map (fun c => preorderAux ar fuel c)).flatten

def treeGenerator (ar : List Node) (r : Nat) : List Nat :=
  preorderAux ar ar.length r

/-- One step of the clean-up loop of `buildSilvaTree`: a visited node
whose id is not an integer receives `int(node.ncbi_tax_id)` when the
attribute is present and otherwise the incremented high-water mark
`maxTaxid`. -/
def assignStep (ar : List Node) (m i : Nat) : List Node × Nat :=
  match (ar.getD i dNode).id with
  | PId.num _ => (ar, m)
  | PId.str _ =>
    match (ar.getD i dNode).ncbi_tax_id with
    | some e => (ar.set i { ar.getD i dNode with id := PId.num e }, m)
    | none =>
        (ar.set i { ar.getD i dNode with id := PId.num (m + 1) }, m + 1)

/-- The clean-up loop of `buildSilvaTree` over the traversal order. -/
def assignIds : List Node → Nat → List Nat → List Node × Nat
  | ar, m, [] => (ar, m)
  | ar, m, i :: rest =>
      assignIds (assignStep ar m i).1 (assignStep ar m i).2 rest

/-- `buildSilvaTree` with the two input files already read: the rows of
the taxonomy table and the (hitid, lineage) pairs from the fasta headers.
`maxTaxid=max(silvaTaxidMap.values())` raises `ValueError` on an empty
table (modelled by `none`).  The reported root is
`next(iter(silvaTree.values())).getRootNode()`: walking parent links from
any node lands on the parentless synthetic root, arena index 0.  Returns
the cleaned arena, the reported root index, and the hitid→taxid map
resolved to node ids. -/
def buildSilvaCore (rows : List SilvaRow) (pairs : List (String × String)) :
    Option (List Node × Nat × List (String × PId)) :=
  if rows.isEmpty then none
  else
    match silvaFastaPass (silvaTablePass [rootNode0] (dictItems rows)) []
        pairs with
    | (ar, tm) =>
      match assignIds ar (listMax (silvaExtIds rows)) (treeGenerator ar 0)
          with
      | (ar2, _) =>
        some (ar2, 0, tm.map (fun kv => (kv.1, idAt ar2 kv.2)))

/-- `buildSilvaTree` proper: the fasta pairs come from
`getOrgsFromSilvaFasta`, whose uncaught `ValueError` on a malformed
header aborts the whole run (`none`). -/
def buildSilvaTree (rows : List SilvaRow) (fastaLines : List String) :
    Option (List Node × Nat × List (String × PId)) :=
  match getOrgsFromSilvaFasta fastaLines with
  | Except.error _ => none
  | Except.ok pairs => buildSilvaCore rows pairs

/-- The integer ids present in the arena. -/
def numOf : PId → Option Nat
  | PId.num k => some k
  | PId.str _ => none

def numList (ar : List Node) : List (Option Nat) :=
  ar.map (fun nd => numOf nd.id)

def numIds (ar : List Node) : List Nat := (numList ar).filterMap id

def ncbiList (ar : List Node) : List (Option Nat) :=
  ar.map (fun nd => nd.ncbi_tax_id)

def someVals (l : List (Option Nat)) : List Nat := l.filterMap id

def parentsList (ar : List Node) : List (Option Nat) :=
  ar.map (fun nd => nd.parent)

theorem parentsList_addChild (ar : List Node) (i c : Nat) :
    parentsList (addChild ar i c) = parentsList ar := by
  unfold addChild parentsList
  exact map_field_set _ ar i _ rfl

theorem parentsList_setRankNcbi (ar : List Node) (j : Nat) (rk : String)
    (tid : Nat) :
    parentsList (setRankNcbi ar j rk tid) = parentsList ar := by
  unfold setRankNcbi parentsList
  exact map_field_set _ ar j _ rfl

theorem parentsList_assignStep (ar : List Node) (m i : Nat) :
    parentsList ((assignStep ar m i).1) = parentsList ar := by
  unfold assignStep
  cases h1 : (ar.getD i dNode).id with
  | num k => rfl
  | str s =>
    cases h2 : (ar.getD i dNode).ncbi_tax_id with
    | some e =>
      show parentsList (ar.set i _) = parentsList ar
      unfold parentsList
      exact map_field_set _ ar i _ rfl
    | none =>
      show parentsList (ar.set i _) = parentsList ar
      unfold parentsList
      exact map_field_set _ ar i _ rfl

theorem parentsList_assignIds :
    ∀ (visit : List Nat) (ar : List Node) (m : Nat),
      parentsList ((assignIds ar m visit).1) = parentsList ar := by
  intro visit
  induction visit with
  | nil => intro ar m; rfl
  | cons i rest ih =>
    intro ar m
    show parentsList ((assignIds (assignStep ar m i).1
      (assignStep ar m i).2 rest).1) = _
    rw [ih, parentsList_assignStep]

theorem parentsList_insertSilvaPath :
    ∀ (p : List String) (ar : List Node) (cur : Nat),
      ∃ ext, parentsList ((insertSilvaPath ar cur p).1) =
        parentsList ar ++ ext := by
  intro p
  induction p with
  | nil => intro ar cur; exact ⟨[], by rw [List.append_nil]; rfl⟩
  | cons nm rest ih =>
    intro ar cur
    unfold insertSilvaPath
    cases hf : findChild ar cur nm with
    | some j => exact ih ar j
    | none =>
      obtain ⟨e2, he2⟩ := ih
        (addChild
          (ar ++
            [{ id := PId.str nm, name := nm, rank := none,
               ncbi_tax_id := none, parent := some cur, children := [] }])
          cur ar.length)
        ar.length
      refine ⟨some cur :: e2, ?_⟩
      rw [he2, parentsList_addChild]
      unfold parentsList
      rw [List.map_append]
      simp [List.append_assoc]

theorem parentsList_silvaTablePass :
    ∀ (items : List (String × String × Nat)) (ar : List Node),
      ∃ ext, parentsList (silvaTablePass ar items) =
        parentsList ar ++ ext := by
  intro items
  induction items with
  | nil => intro ar; exact ⟨[], by rw [List.append_nil]; rfl⟩
  | cons it rest ih =>
    intro ar
    obtain ⟨l2, rk, tid⟩ := it
    unfold silvaTablePass
    obtain ⟨e1, he1⟩ := parentsList_insertSilvaPath
      ((splitListOn ';' (stripSemiSpace l2).data).map ofChars) ar 0
    obtain ⟨e2, he2⟩ := ih
      (setRankNcbi (addToTreeFromString (stripSemiSpace l2) ar).1
        (addToTreeFromString (stripSemiSpace l2) ar).2 (rankMappingGet rk)
        tid)
    refine ⟨e1 ++ e2, ?_⟩
    rw [he2, parentsList_setRankNcbi]
    show parentsList ((insertSilvaPath ar 0 _).1) ++ e2 = _
    rw [he1, List.append_assoc]

theorem parentsList_silvaFastaPass :
    ∀ (pairs : List (String × String)) (ar : List Node)
      (tm : List (String × Nat)),
      ∃ ext, parentsList ((silvaFastaPass ar tm pairs).1) =
        parentsList ar ++ ext := by
  intro pairs
  induction pairs with
  | nil => intro ar tm; exact ⟨[], by rw [List.append_nil]; rfl⟩
  | cons pr rest ih =>
    intro ar tm
    obtain ⟨hitid, lineage⟩ := pr
    unfold silvaFastaPass
    obtain ⟨e1, he1⟩ := parentsList_insertSilvaPath
      ((splitListOn ';' lineage.data).map ofChars) ar 0
    obtain ⟨e2, he2⟩ := ih (addToTreeFromString lineage ar).1
      (dictUpd tm hitid (addToTreeFromString lineage ar).2)
    refine ⟨e1 ++ e2, ?_⟩
    rw [he2]
    show parentsList ((insertSilvaPath ar 0 _).1) ++ e2 = _
    rw [he1, List.append_assoc]

theorem parentAt_zero_eq (ar : List Node) :
    parentAt ar 0 = (parentsList ar).getD 0 none := by
  cases ar <;> rfl

/-- The arena `buildSilvaCore` produces for the one-row table
`[("A;B", "k", 5)]` with no fasta records: the synthetic root (fallback id
6), node "A" (fallback id 7) and node "B" (external id 5). -/
def silvaDemoArena : List Node :=
  [{ id := PId.num 6, name := "root", rank := none, ncbi_tax_id := none,
     parent := none, children := [1] },
   { id := PId.num 7, name := "A", rank := none, ncbi_tax_id := none,
     parent := some 0, children := [2] },
   { id := PId.num 5, name := "B", rank := some "k", ncbi_tax_id := some 5,
     parent := some 1, children := [] }]

/-- Claim C4, counterexample: in rank-table (Silva) mode the reported root
is the parentless synthetic root itself (arena index 0), not its single
child: on a one-row table the synthetic root has exactly one child (node
1), yet `buildSilvaTree` reports node 0, whose `parent` is `none`. -/
theorem silva_reported_root_counterexample :
    (buildSilvaCore [⟨"A;B", "k", 5⟩] []).map
        (fun res => (res.2.1, childrenAt res.1 res.2.1,
          parentAt res.1 res.2.1)) =
      some (0, [1], none) ∧ (0 : Nat) ≠ 1 := by
  decide

/-- Claim C4, amended: in the self-contained (PR2) mode the reported root
is the synthetic root's first child, the warning fires exactly when the
synthetic root does not have exactly one child, and processing does not
abort as long as at least one child exists; in the rank-table (Silva) mode
the reported root is instead the synthetic root itself, reached by walking
parent links from an arbitrary node, and no multiple-children warning is
emitted there. -/
theorem reported_root_amended :
    (∀ (idStart : Nat) (lines : List String) (c : Nat) (cs : List Nat),
      childrenAt (processLines (initPR2 idStart) lines).arena 0 = c :: cs →
      buildPR2Tree idStart lines =
        (((c :: cs).length != 1),
         some (c, processLines (initPR2 idStart) lines))) ∧
    (∀ (rows : List SilvaRow) (pairs : List (String × String))
      (ar : List Node) (r : Nat) (tm : List (String × PId)),
      buildSilvaCore rows pairs = some (ar, r, tm) →
      r = 0 ∧ parentAt ar 0 = none) := by
  constructor
  · intro idStart lines c cs h
    show (((childrenAt (processLines (initPR2 idStart) lines).arena
          0).length != 1),
        match childrenAt (processLines (initPR2 idStart) lines).arena 0 with
        | [] => none
        | c2 :: _ => some (c2, processLines (initPR2 idStart) lines)) =
      (((c :: cs).length != 1),
       some (c, processLines (initPR2 idStart) lines))
    rw [h]
  · intro rows pairs ar r tm hres
    unfold buildSilvaCore at hres
    by_cases hrows : rows.isEmpty
    · rw [if_pos hrows] at hres
      exact Option.noConfusion hres
    · rw [if_neg hrows] at hres
      have hres2 :
          some ((assignIds
              (silvaFastaPass (silvaTablePass [rootNode0] (dictItems rows))
                [] pairs).1
              (listMax (silvaExtIds rows))
              (treeGenerator
                (silvaFastaPass (silvaTablePass [rootNode0]
                  (dictItems rows)) [] pairs).1 0)).1,
            (0 : Nat),
            (silvaFastaPass (silvaTablePass [rootNode0] (dictItems rows))
                [] pairs).2.map
              (fun kv =>
                (kv.1,
                 idAt (assignIds
                    (silvaFastaPass (silvaTablePass [rootNode0]
                      (dictItems rows)) [] pairs).1
                    (listMax (silvaExtIds rows))
                    (treeGenerator
                      (silvaFastaPass (silvaTablePass [rootNode0]
                        (dictItems rows)) [] pairs).1 0)).1 kv.2))) =
          some (ar, r, tm) := hres
      injection hres2 with h3
      rw [Prod.mk.injEq, Prod.mk.injEq] at h3
      obtain ⟨har, hr, htm⟩ := h3
      refine ⟨hr.symm, ?_⟩
      rw [← har]
      rw [parentAt_zero_eq, parentsList_assignIds]
      obtain ⟨e2, he2⟩ := parentsList_silvaFastaPass pairs
        (silvaTablePass [rootNode0] (dictItems rows)) []
      rw [he2]
      obtain ⟨e1, he1⟩ := parentsList_silvaTablePass (dictItems rows)
        [rootNode0]
      rw [he1, List.append_assoc]
      rw [List.getD_append _ _ _ _ (by decide)]
      rfl

/-- Witness for `reported_root_amended`: a PR2 run whose synthetic root
has two children (warning fires, first child reported) and a Silva run
whose reported root is the parentless synthetic root. -/
theorem reported_root_amended_witness :
    childrenAt (processLines (initPR2 0) [">a|P", ">b|Q"]).arena 0 =
      [1, 2] ∧
    buildPR2Tree 0 [">a|P", ">b|Q"] =
      (true, some (1, processLines (initPR2 0) [">a|P", ">b|Q"])) ∧
    buildSilvaCore [⟨"A;B", "k", 5⟩] [] =
      some (silvaDemoArena, 0, []) ∧
    ((0 : Nat) = 0 ∧ parentAt silvaDemoArena 0 = none) :=
  ⟨by decide,
   reported_root_amended.1 0 [">a|P", ">b|Q"] 1 [2] (by decide),
   by decide,
   reported_root_amended.2 [⟨"A;B", "k", 5⟩] [] silvaDemoArena 0 []
     (by decide)⟩

theorem le_listMax : ∀ (l : List Nat) (e : Nat), e ∈ l → e ≤ listMax l
  | [], e, h => absurd h (List.not_mem_nil e)
  | a :: t, e, h => by
      rcases List.mem_cons.mp h with rfl | h2
      · show e ≤ max e (listMax t)
        exact Nat.le_max_left e (listMax t)
      · show e ≤ max a (listMax t)
        exact le_trans (le_listMax t e h2) (Nat.le_max_right a (listMax t))

theorem mem_ncbiVals (ar : List Node) (e : Nat) :
    e ∈ someVals (ncbiList ar) ↔
      ∃ nd ∈ ar, nd.ncbi_tax_id = some e := by
  unfold someVals ncbiList
  rw [List.mem_filterMap]
  constructor
  · rintro ⟨o, ho, hid⟩
    obtain ⟨nd, hnd, hfo⟩ := List.mem_map.mp ho
    exact ⟨nd, hnd, by rw [hfo]; exact hid⟩
  · rintro ⟨nd, hnd, hncbi⟩
    exact ⟨some e, List.mem_map.mpr ⟨nd, hnd, hncbi⟩, rfl⟩

theorem mem_numIds (ar : List Node) (e : Nat) :
    e ∈ numIds ar ↔ ∃ nd ∈ ar, nd.id = PId.num e := by
  unfold numIds numList
  rw [List.mem_filterMap]
  constructor
  · rintro ⟨o, ho, hid⟩
    obtain ⟨nd, hnd, hfo⟩ := List.mem_map.mp ho
    refine ⟨nd, hnd, ?_⟩
    have h2 : numOf nd.id = some e := by rw [hfo]; exact hid
    cases hcase : nd.id with
    | num k =>
      rw [hcase] at h2
      unfold numOf at h2
      exact congrArg PId.num (Option.some.injEq .. ▸ h2 : k = e) ▸ rfl
    | str s =>
      rw [hcase] at h2
      exact Option.noConfusion h2
  · rintro ⟨nd, hnd, hid⟩
    refine ⟨some e, List.mem_map.mpr ⟨nd, hnd, ?_⟩, rfl⟩
    rw [hid]
    rfl

theorem someVals_sub_cons (a : Option Nat) (t : List (Option Nat)) :
    ∀ x ∈ someVals t, x ∈ someVals (a :: t) := by
  intro x hx
  cases a with
  | some b => exact List.mem_cons_of_mem b hx
  | none => exact hx

theorem someVals_nodup_tail (a : Option Nat) (t : List (Option Nat))
    (h : (someVals (a :: t)).Nodup) : (someVals t).Nodup := by
  cases a with
  | some b => exact (List.nodup_cons.mp h).2
  | none => exact h

theorem someVals_set :
    ∀ (l : List (Option Nat)) (j : Nat) (v : Nat),
      (someVals l).Nodup → v ∉ someVals l →
      (someVals (l.set j (some v))).Nodup ∧
      ∀ x ∈ someVals (l.set j (some v)), x = v ∨ x ∈ someVals l
  | [], j, v, h1, h2 => by
      constructor
      · exact List.nodup_nil
      · intro x hx
        exact absurd hx (List.not_mem_nil x)
  | a :: t, 0, v, h1, h2 => by
      rw [List.set_cons_zero]
      have hvt : v ∉ someVals t := fun hm => h2 (someVals_sub_cons a t v hm)
      constructor
      · exact List.nodup_cons.mpr ⟨hvt, someVals_nodup_tail a t h1⟩
      · intro x hx
        rcases List.mem_cons.mp hx with rfl | hx2
        · exact Or.inl rfl
        · exact Or.inr (someVals_sub_cons a t x hx2)
  | a :: t, j + 1, v, h1, h2 => by
      rw [List.set_cons_succ]
      cases a with
      | none =>
          exact someVals_set t j v h1 h2
      | some b =>
          have hb : b ∉ someVals t := (List.nodup_cons.mp h1).1
          have hnt : (someVals t).Nodup := (List.nodup_cons.mp h1).2
          have hvb : v ≠ b := fun he => h2 (he ▸ List.mem_cons_self b _)
          have hvt : v ∉ someVals t :=
            fun hm => h2 (List.mem_cons_of_mem b hm)
          obtain ⟨hN, hM⟩ := someVals_set t j v hnt hvt
          constructor
          · refine List.nodup_cons.mpr ⟨?_, hN⟩
            intro hbm
            rcases hM b hbm with rfl | hbm2
            · exact hvb rfl
            · exact hb hbm2
          · intro x hx
            rcases List.mem_cons.mp hx with rfl | hx2
            · exact Or.inr (List.mem_cons_self x _)
            · rcases hM x hx2 with rfl | hx3
              · exact Or.inl rfl
              · exact Or.inr (List.mem_cons_of_mem b hx3)

theorem mem_someVals_of_getD :
    ∀ (l : List (Option Nat)) (j : Nat) (e : Nat),
      l.getD j none = some e → e ∈ someVals l
  | [], j, e, h => by simp at h
  | a :: t, 0, e, h => by
      rw [List.getD_cons_zero] at h
      rw [h]
      exact List.mem_cons_self e _
  | a :: t, j + 1, e, h => by
      rw [List.getD_cons_succ] at h
      exact someVals_sub_cons a t e (mem_someVals_of_getD t j e h)

theorem someVals_nodup_getD_inj :
    ∀ (l : List (Option Nat)) (i j : Nat) (e : Nat),
      (someVals l).Nodup → l.getD i none = some e →
      l.getD j none = some e → i = j
  | [], i, j, e, _, hi, _ => by simp at hi
  | a :: t, 0, 0, e, _, _, _ => rfl
  | a :: t, 0, j + 1, e, hnd, hi, hj => by
      rw [List.getD_cons_zero] at hi
      rw [List.getD_cons_succ] at hj
      rw [hi] at hnd
      exact absurd (mem_someVals_of_getD t j e hj)
        (List.nodup_cons.mp hnd).1
  | a :: t, i + 1, 0, e, hnd, hi, hj => by
      rw [List.getD_cons_succ] at hi
      rw [List.getD_cons_zero] at hj
      rw [hj] at hnd
      exact absurd (mem_someVals_of_getD t i e hi)
        (List.nodup_cons.mp hnd).1
  | a :: t, i + 1, j + 1, e, hnd, hi, hj => by
      rw [List.getD_cons_succ] at hi hj
      exact congrArg Nat.succ
        (someVals_nodup_getD_inj t i j e (someVals_nodup_tail a t hnd)
          hi hj)

theorem someVals_append_none (l : List (Option Nat)) :
    someVals (l ++ [none]) = someVals l := by
  unfold someVals
  rw [List.filterMap_append]
  simp

theorem ncbiList_addChild (ar : List Node) (i c : Nat) :
    ncbiList (addChild ar i c) = ncbiList ar := by
  unfold addChild ncbiList
  exact map_field_set _ ar i _ rfl

theorem ncbiList_setRankNcbi (ar : List Node) (j : Nat) (rk : String)
    (tid : Nat) :
    ncbiList (setRankNcbi ar j rk tid) = (ncbiList ar).set j (some tid) := by
  unfold setRankNcbi ncbiList
  rw [List.map_set]

theorem numList_addChild (ar : List Node) (i c : Nat) :
    numList (addChild ar i c) = numList ar := by
  unfold addChild numList
  exact map_field_set _ ar i _ rfl

theorem numList_setRankNcbi (ar : List Node) (j : Nat) (rk : String)
    (tid : Nat) :
    numList (setRankNcbi ar j rk tid) = numList ar := by
  unfold setRankNcbi numList
  exact map_field_set _ ar j _ rfl

theorem ncbi_insertSilvaPath :
    ∀ (p : List String) (ar : List Node) (cur : Nat),
      someVals (ncbiList ((insertSilvaPath ar cur p).1)) =
        someVals (ncbiList ar) := by
  intro p
  induction p with
  | nil => intro ar cur; rfl
  | cons nm rest ih =>
    intro ar cur
    unfold insertSilvaPath
    cases hf : findChild ar cur nm with
    | some j => exact ih ar j
    | none =>
      rw [ih]
      rw [ncbiList_addChild]
      show someVals (ncbiList (ar ++ [_])) = _
      unfold ncbiList
      rw [List.map_append]
      exact someVals_append_none _

theorem numIds_insertSilvaPath :
    ∀ (p : List String) (ar : List Node) (cur : Nat),
      numIds ((insertSilvaPath ar cur p).1) = numIds ar := by
  intro p
  induction p with
  | nil => intro ar cur; rfl
  | cons nm rest ih =>
    intro ar cur
    unfold insertSilvaPath
    cases hf : findChild ar cur nm with
    | some j => exact ih ar j
    | none =>
      rw [ih]
      unfold numIds
      rw [numList_addChild]
      show ((numList (ar ++ [_])).filterMap id) = _
      unfold numList
      rw [List.map_append]
      exact someVals_append_none _

theorem numIds_silvaTablePass :
    ∀ (items : List (String × String × Nat)) (ar : List Node),
      numIds (silvaTablePass ar items) = numIds ar := by
  intro items
  induction items with
  | nil => intro ar; rfl
  | cons it rest ih =>
    intro ar
    obtain ⟨l2, rk, tid⟩ := it
    unfold silvaTablePass
    rw [ih]
    unfold numIds
    rw [numList_setRankNcbi]
    exact congrArg (fun l => l.filterMap id)
      (congrArg numList (rfl : (addToTreeFromString (stripSemiSpace l2)
          ar).1 = _)) ▸
        (numIds_insertSilvaPath _ ar 0 : numIds _ = numIds ar)

theorem numIds_silvaFastaPass :
    ∀ (pairs : List (String × String)) (ar : List Node)
      (tm : List (String × Nat)),
      numIds ((silvaFastaPass ar tm pairs).1) = numIds ar := by
  intro pairs
  induction pairs with
  | nil => intro ar tm; rfl
  | cons pr rest ih =>
    intro ar tm
    obtain ⟨hitid, lineage⟩ := pr
    unfold silvaFastaPass
    rw [ih]
    exact numIds_insertSilvaPath _ ar 0

theorem ncbi_silvaFastaPass :
    ∀ (pairs : List (String × String)) (ar : List Node)
      (tm : List (String × Nat)),
      someVals (ncbiList ((silvaFastaPass ar tm pairs).1)) =
        someVals (ncbiList ar) := by
  intro pairs
  induction pairs with
  | nil => intro ar tm; rfl
  | cons pr rest ih =>
    intro ar tm
    obtain ⟨hitid, lineage⟩ := pr
    unfold silvaFastaPass
    rw [ih]
    exact ncbi_insertSilvaPath _ ar 0

theorem ncbi_addToTree (lineage : String) (ar : List Node) :
    someVals (ncbiList ((addToTreeFromString lineage ar).1)) =
      someVals (ncbiList ar) :=
  ncbi_insertSilvaPath _ ar 0

theorem ncbi_silvaTablePass :
    ∀ (items : List (String × String × Nat)) (ar : List Node)
      (done : List Nat),
      (someVals (ncbiList ar)).Nodup →
      (∀ x ∈ someVals (ncbiList ar), x ∈ done) →
      (done ++ items.map (fun it => it.2.2)).Nodup →
      (someVals (ncbiList (silvaTablePass ar items))).Nodup ∧
      ∀ x ∈ someVals (ncbiList (silvaTablePass ar items)),
        x ∈ done ++ items.map (fun it => it.2.2) := by
  intro items
  induction items with
  | nil =>
    intro ar done h1 h2 _
    refine ⟨h1, ?_⟩
    intro x hx
    simpa using h2 x hx
  | cons it rest ih =>
    intro ar done h1 h2 h3
    obtain ⟨l2, rk, tid⟩ := it
    have hdisj := List.nodup_append.mp h3
    have htid_done : tid ∉ done := by
      intro hm
      exact hdisj.2.2 hm (List.mem_cons_self tid _)
    have h1b : (someVals (ncbiList
        ((addToTreeFromString (stripSemiSpace l2) ar).1))).Nodup := by
      rw [ncbi_addToTree]
      exact h1
    have h2b : ∀ x ∈ someVals (ncbiList
        ((addToTreeFromString (stripSemiSpace l2) ar).1)), x ∈ done := by
      intro x hx
      rw [ncbi_addToTree] at hx
      exact h2 x hx
    have htid_not : tid ∉ someVals (ncbiList
        ((addToTreeFromString (stripSemiSpace l2) ar).1)) := by
      intro hm
      exact htid_done (h2b tid hm)
    obtain ⟨hN, hM⟩ := someVals_set
      (ncbiList ((addToTreeFromString (stripSemiSpace l2) ar).1))
      ((addToTreeFromString (stripSemiSpace l2) ar).2) tid h1b htid_not
    have hN2 : (someVals (ncbiList
        (setRankNcbi ((addToTreeFromString (stripSemiSpace l2) ar).1)
          ((addToTreeFromString (stripSemiSpace l2) ar).2)
          (rankMappingGet rk) tid))).Nodup := by
      rw [ncbiList_setRankNcbi]
      exact hN
    have hM2 : ∀ x ∈ someVals (ncbiList
        (setRankNcbi ((addToTreeFromString (stripSemiSpace l2) ar).1)
          ((addToTreeFromString (stripSemiSpace l2) ar).2)
          (rankMappingGet rk) tid)), x ∈ done ++ [tid] := by
      intro x hx
      rw [ncbiList_setRankNcbi] at hx
      rcases hM x hx with rfl | hx2
      · exact List.mem_append.mpr (Or.inr (List.mem_singleton.mpr rfl))
      · exact List.mem_append.mpr (Or.inl (h2b x hx2))
    have h3b : ((done ++ [tid]) ++ rest.map (fun it => it.2.2)).Nodup := by
      rw [List.append_assoc, List.singleton_append]
      exact h3
    have hres := ih
      (setRankNcbi ((addToTreeFromString (stripSemiSpace l2) ar).1)
        ((addToTreeFromString (stripSemiSpace l2) ar).2)
        (rankMappingGet rk) tid)
      (done ++ [tid]) hN2 hM2 h3b
    rw [List.append_assoc, List.singleton_append] at hres
    exact hres

theorem ncbiList_getD (ar : List Node) (j : Nat) :
    (ncbiList ar).getD j none = (ar.getD j dNode).ncbi_tax_id := by
  unfold ncbiList
  exact List.getD_map ar dNode (fun nd => nd.ncbi_tax_id)

/-- Invariant of the clean-up loop of `buildSilvaTree`: every integer id
either came from the node's own `ncbi_tax_id` or is a fallback strictly
above the seeded mark `m0` and at most the current mark `m`; the integer
ids are pairwise distinct; the `ncbi_tax_id` values are pairwise distinct
and bounded by `m0`. -/
def CleanInv (m0 : Nat) (ar : List Node) (m : Nat) : Prop :=
  (∀ nd ∈ ar, ∀ k, nd.id = PId.num k →
    nd.ncbi_tax_id = some k ∨ (m0 < k ∧ k ≤ m)) ∧
  (numIds ar).Nodup ∧
  (someVals (ncbiList ar)).Nodup ∧
  (∀ x ∈ someVals (ncbiList ar), x ≤ m0) ∧
  m0 ≤ m

theorem cleanInv_assignStep (m0 : Nat) (ar : List Node) (m i : Nat)
    (h : CleanInv m0 ar m) :
    CleanInv m0 (assignStep ar m i).1 (assignStep ar m i).2 ∧
      m ≤ (assignStep ar m i).2 := by
  obtain ⟨h1, h2, h3, h4, h5⟩ := h
  unfold assignStep
  cases hid : (ar.getD i dNode).id with
  | num k => exact ⟨⟨h1, h2, h3, h4, h5⟩, Nat.le_refl m⟩
  | str s =>
    cases hnc : (ar.getD i dNode).ncbi_tax_id with
    | some e =>
      have hi_lt : i < ar.length := by
        by_contra hcon
        rw [List.getD_eq_default ar dNode (Nat.le_of_not_lt hcon)] at hnc
        exact Option.noConfusion hnc
      have hgd_mem : ar.getD i dNode ∈ ar := by
        rw [List.getD_eq_getElem ar dNode hi_lt]
        exact List.getElem_mem hi_lt
      have he_le : e ≤ m0 :=
        h4 e ((mem_ncbiVals ar e).mpr ⟨ar.getD i dNode, hgd_mem, hnc⟩)
      have he_not : e ∉ numIds ar := by
        intro hmem
        obtain ⟨nd2, hmm, hid2⟩ := (mem_numIds ar e).mp hmem
        rcases h1 nd2 hmm e hid2 with hcase | hcase
        · obtain ⟨j2, hj2lt, hj2eq⟩ := List.mem_iff_getElem.mp hmm
          have hgd2 : ar.getD j2 dNode = nd2 := by
            rw [List.getD_eq_getElem ar dNode hj2lt, hj2eq]
          have hg1 : (ncbiList ar).getD i none = some e := by
            rw [ncbiList_getD, hnc]
          have hg2 : (ncbiList ar).getD j2 none = some e := by
            rw [ncbiList_getD, hgd2, hcase]
          have hij : i = j2 := someVals_nodup_getD_inj _ i j2 e h3 hg1 hg2
          rw [← hij] at hgd2
          rw [hgd2] at hid
          rw [hid] at hid2
          exact PId.noConfusion hid2
        · exact absurd he_le (Nat.not_le.mpr hcase.1)
      have hpres : ncbiList (ar.set i
          { ar.getD i dNode with id := PId.num e }) = ncbiList ar := by
        unfold ncbiList
        exact map_field_set _ ar i _ rfl
      have hmapset : numList (ar.set i
          { ar.getD i dNode with id := PId.num e }) =
          (numList ar).set i (some e) := by
        unfold numList
        rw [List.map_set]
        rfl
      refine ⟨⟨?_, ?_, ?_, ?_, h5⟩, Nat.le_refl m⟩
      · intro nd hmem k2 hk2
        rcases List.mem_or_eq_of_mem_set hmem with hin | rfl
        · exact h1 nd hin k2 hk2
        · have hek : PId.num e = PId.num k2 := hk2
          injection hek with hke
          subst hke
          exact Or.inl hnc
      · show (numIds (ar.set i _)).Nodup
        unfold numIds
        rw [hmapset]
        exact (someVals_set (numList ar) i e h2 he_not).1
      · show (someVals (ncbiList (ar.set i _))).Nodup
        rw [hpres]
        exact h3
      · intro x hx
        rw [hpres] at hx
        exact h4 x hx
    | none =>
      have hm1_not : (m + 1) ∉ numIds ar := by
        intro hmem
        obtain ⟨nd2, hmm, hid2⟩ := (mem_numIds ar (m + 1)).mp hmem
        rcases h1 nd2 hmm (m + 1) hid2 with hcase | hcase
        · have := h4 (m + 1)
            ((mem_ncbiVals ar (m + 1)).mpr ⟨nd2, hmm, hcase⟩)
          omega
        · omega
      have hpres : ncbiList (ar.set i
          { ar.getD i dNode with id := PId.num (m + 1) }) =
          ncbiList ar := by
        unfold ncbiList
        exact map_field_set _ ar i _ rfl
      have hmapset : numList (ar.set i
          { ar.getD i dNode with id := PId.num (m + 1) }) =
          (numList ar).set i (some (m + 1)) := by
        unfold numList
        rw [List.map_set]
        rfl
      refine ⟨⟨?_, ?_, ?_, ?_, ?_⟩, Nat.le_succ m⟩
      · intro nd hmem k2 hk2
        rcases List.mem_or_eq_of_mem_set hmem with hin | rfl
        · rcases h1 nd hin k2 hk2 with hc | hc
          · exact Or.inl hc
          · exact Or.inr ⟨hc.1, Nat.le_succ_of_le hc.2⟩
        · have hek : PId.num (m + 1) = PId.num k2 := hk2
          injection hek with hke
          subst hke
          exact Or.inr ⟨Nat.lt_succ_of_le h5, Nat.le_refl _⟩
      · show (numIds (ar.set i _)).Nodup
        unfold numIds
        rw [hmapset]
        exact (someVals_set (numList ar) i (m + 1) h2 hm1_not).1
      · show (someVals (ncbiList (ar.set i _))).Nodup
        rw [hpres]
        exact h3
      · intro x hx
        rw [hpres] at hx
        exact h4 x hx
      · exact Nat.le_succ_of_le h5

theorem cleanInv_assignIds (m0 : Nat) :
    ∀ (visit : List Nat) (ar : List Node) (m : Nat),
      CleanInv m0 ar m →
      CleanInv m0 (assignIds ar m visit).1 (assignIds ar m visit).2 := by
  intro visit
  induction visit with
  | nil => intro ar m h; exact h
  | cons i rest ih =>
    intro ar m h
    exact ih (assignStep ar m i).1 (assignStep ar m i).2
      (cleanInv_assignStep m0 ar m i h).1

theorem silva_preclean_inv (rows : List SilvaRow)
    (pairs : List (String × String))
    (hnodup : (silvaExtIds rows).Nodup) :
    CleanInv (listMax (silvaExtIds rows))
      ((silvaFastaPass (silvaTablePass [rootNode0] (dictItems rows)) []
        pairs).1)
      (listMax (silvaExtIds rows)) := by
  have hnum : numIds ((silvaFastaPass (silvaTablePass [rootNode0]
      (dictItems rows)) [] pairs).1) = [] := by
    rw [numIds_silvaFastaPass, numIds_silvaTablePass]
    rfl
  have htbl := ncbi_silvaTablePass (dictItems rows) [rootNode0] []
    (by exact List.nodup_nil)
    (by intro x hx; exact absurd hx (List.not_mem_nil x))
    (by rw [List.nil_append]; exact hnodup)
  refine ⟨?_, ?_, ?_, ?_, Nat.le_refl _⟩
  · intro nd hmem k hk
    have hk2 : k ∈ numIds ((silvaFastaPass (silvaTablePass [rootNode0]
        (dictItems rows)) [] pairs).1) :=
      (mem_numIds _ k).mpr ⟨nd, hmem, hk⟩
    rw [hnum] at hk2
    exact absurd hk2 (List.not_mem_nil k)
  · rw [hnum]
    exact List.nodup_nil
  · rw [ncbi_silvaFastaPass]
    exact htbl.1
  · intro x hx
    rw [ncbi_silvaFastaPass] at hx
    have h2 := htbl.2 x hx
    rw [List.nil_append] at h2
    exact le_listMax _ x h2

/-- Claim C2: in rank-table (Silva) mode the fallback high-water mark is
seeded with the maximum of all externally supplied integer ids before any
fallback assignment, so every fallback-assigned id (a node with no
`ncbi_tax_id`) is strictly greater than every external id, and — the
external ids being pairwise distinct — no integer id is assigned to two
different nodes within one run. -/
theorem silva_fallback_id_collision_free (rows : List SilvaRow)
    (pairs : List (String × String)) (ar : List Node) (r : Nat)
    (tm : List (String × PId))
    (hnodup : (silvaExtIds rows).Nodup)
    (hres : buildSilvaCore rows pairs = some (ar, r, tm)) :
    (∀ nd ∈ ar, nd.ncbi_tax_id = none → ∀ k, nd.id = PId.num k →
      ∀ e ∈ silvaExtIds rows, e < k) ∧
    (numIds ar).Nodup := by
  unfold buildSilvaCore at hres
  by_cases hrows : rows.isEmpty
  · rw [if_pos hrows] at hres
    exact Option.noConfusion hres
  · rw [if_neg hrows] at hres
    have hres2 :
        some ((assignIds
            (silvaFastaPass (silvaTablePass [rootNode0] (dictItems rows))
              [] pairs).1
            (listMax (silvaExtIds rows))
            (treeGenerator
              (silvaFastaPass (silvaTablePass [rootNode0]
                (dictItems rows)) [] pairs).1 0)).1,
          (0 : Nat),
          (silvaFastaPass (silvaTablePass [rootNode0] (dictItems rows))
              [] pairs).2.map
            (fun kv =>
              (kv.1,
               idAt (assignIds
                  (silvaFastaPass (silvaTablePass [rootNode0]
                    (dictItems rows)) [] pairs).1
                  (listMax (silvaExtIds rows))
                  (treeGenerator
                    (silvaFastaPass (silvaTablePass [rootNode0]
                      (dictItems rows)) [] pairs).1 0)).1 kv.2))) =
        some (ar, r, tm) := hres
    injection hres2 with h3
    rw [Prod.mk.injEq, Prod.mk.injEq] at h3
    obtain ⟨har, hr, htm⟩ := h3
    have hinv := cleanInv_assignIds (listMax (silvaExtIds rows))
      (treeGenerator (silvaFastaPass (silvaTablePass [rootNode0]
        (dictItems rows)) [] pairs).1 0)
      ((silvaFastaPass (silvaTablePass [rootNode0] (dictItems rows)) []
        pairs).1)
      (listMax (silvaExtIds rows))
      (silva_preclean_inv rows pairs hnodup)
    rw [har] at hinv
    obtain ⟨g1, g2, _, _, _⟩ := hinv
    constructor
    · intro nd hmem hnone k hk e hemem
      rcases g1 nd hmem k hk with hc | hc
      · rw [hnone] at hc
        exact Option.noConfusion hc
      · exact Nat.lt_of_le_of_lt (le_listMax _ e hemem) hc.1
    · exact g2

/-- The arena `buildSilvaCore` produces for the three-row table with
external ids {5, 12, 7} plus one fasta record "A;B;D": the synthetic root
and the new leaf "D" get the fallback ids 13 and 14, both above 12. -/
def silvaC2Arena : List Node :=
  [{ id := PId.num 13, name := "root", rank := none, ncbi_tax_id := none,
     parent := none, children := [1, 3] },
   { id := PId.num 5, name := "A", rank := some "c", ncbi_tax_id := some 5,
     parent := some 0, children := [2] },
   { id := PId.num 12, name := "B", rank := some "o",
     ncbi_tax_id := some 12, parent := some 1, children := [4] },
   { id := PId.num 7, name := "C", rank := some "f", ncbi_tax_id := some 7,
     parent := some 0, children := [] },
   { id := PId.num 14, name := "D", rank := none, ncbi_tax_id := none,
     parent := some 2, children := [] }]

/-- Witness for `silva_fallback_id_collision_free` with external ids
{5, 12, 7}: the root's fallback id 13 exceeds the external id 12, and the
assigned integer ids are pairwise distinct. -/
theorem silva_fallback_id_collision_free_witness :
    (silvaExtIds [⟨"A", "c", 5⟩, ⟨"A;B", "o", 12⟩, ⟨"C", "f", 7⟩]).Nodup ∧
    (12 : Nat) < 13 ∧ (numIds silvaC2Arena).Nodup :=
  ⟨by decide,
   (silva_fallback_id_collision_free
       [⟨"A", "c", 5⟩, ⟨"A;B", "o", 12⟩, ⟨"C", "f", 7⟩]
       [("h1", "A;B;D")] silvaC2Arena 0 [("h1", PId.num 14)]
       (by decide) (by decide)).1
     { id := PId.num 13, name := "root", rank := none,
       ncbi_tax_id := none, parent := none, children := [1, 3] }
     (by decide) rfl 13 rfl 12 (by decide),
   (silva_fallback_id_collision_free
       [⟨"A", "c", 5⟩, ⟨"A;B", "o", 12⟩, ⟨"C", "f", 7⟩]
       [("h1", "A;B;D")] silvaC2Arena 0 [("h1", PId.num 14)]
       (by decide) (by decide)).2⟩

/-- One record of the nodes/names dump: the values `writeDumpFiles`
interpolates for one traversed node. -/
structure DumpRec where
  nid : PId
  nparent : PId
  nrank : String
  nname : String
deriving DecidableEq, Repr

/-- The fields `writeDumpFiles` emits for traversal node `i`: the dump
root (`node==rootNode`, object identity, here index equality) is its own
parent; any other node dereferences `node.parent.id`, which would crash
on a parentless non-root node (modelled by `none`). -/
def dumpRecOf (ar : List Node) (r i : Nat) : Option DumpRec :=
  if i = r then
    some ⟨idAt ar i, idAt ar i, dumpRank (rankAt ar i), nameAt ar i⟩
  else
    match parentAt ar i with
    | some p =>
        some ⟨idAt ar i, idAt ar p, dumpRank (rankAt ar i), nameAt ar i⟩
    | none => none

def seqOpt {α : Type} : List (Option α) → Option (List α)
  | [] => some []
  | none :: _ => none
  | some a :: t => (seqOpt t).map (fun l => a :: l)

def dumpRecords (ar : List Node) (r : Nat) : Option (List DumpRec) :=
  seqOpt ((treeGenerator ar r).map (dumpRecOf ar r))

/-- Python `"%s" % v` for a taxon id: ints print in decimal, the root's
string id prints as-is. -/
def renderPId : PId → String
  | PId.str s => s
  | PId.num n => toString n

/-- `nodeStream.write("%s\t|\t%s\t|\t%s\t\n" % (nid,nparent,nrank))`. -/
def renderNodeLine (dr : DumpRec) : String :=
  renderPId dr.nid ++ "\t|\t" ++ renderPId dr.nparent ++ "\t|\t" ++
    dr.nrank ++ "\t\n"

/-- `nameStream.write("%s\t|\t%s\t|\t\t|\tscientific name\t\n" % (nid,nname))`. -/
def renderNameLine (dr : DumpRec) : String :=
  renderPId dr.nid ++ "\t|\t" ++ dr.nname ++
    "\t|\t\t|\tscientific name\t\n"

/-- `writeDumpFiles`: the node and name lines, in traversal order. -/
def writeDumpFiles (ar : List Node) (r : Nat) :
    Option (List String × List String) :=
  (dumpRecords ar r).map
    (fun recs => (recs.map renderNodeLine, recs.map renderNameLine))

/-- The record-map loop of `main`:
`taxMapFile.write("%s\t%s\n" % (hitid, taxid))`. -/
def renderTaxMapLine (kv : String × PId) : String :=
  kv.1 ++ "\t" ++ renderPId kv.2 ++ "\n"

def writeTaxMap (tm : List (String × PId)) : List String :=
  tm.map renderTaxMapLine

theorem get_map_eq {α β : Type} (f : α → β) :
    ∀ (l : List α) (k : Nat) (h1 : k < l.length)
      (h2 : k < (l.map f).length),
      (l.map f).get ⟨k, h2⟩ = f (l.get ⟨k, h1⟩)
  | _ :: _, 0, _, _ => rfl
  | _ :: t, k + 1, h1, h2 =>
      get_map_eq f t k (Nat.lt_of_succ_lt_succ h1)
        (Nat.lt_of_succ_lt_succ h2)
  | [], k, h1, _ => absurd h1 (Nat.not_lt_zero k)

theorem seqOpt_get {α : Type} :
    ∀ (l : List (Option α)) (l2 : List α), seqOpt l = some l2 →
      l2.length = l.length ∧
      ∀ (k : Nat) (hk : k < l.length) (hk2 : k < l2.length),
        l.get ⟨k, hk⟩ = some (l2.get ⟨k, hk2⟩)
  | [], l2, h => by
      injection h with h2
      subst h2
      exact ⟨rfl, fun k hk _ => absurd hk (Nat.not_lt_zero k)⟩
  | none :: t, l2, h => Option.noConfusion h
  | some a :: t, l2, h => by
      unfold seqOpt at h
      cases hst : seqOpt t with
      | none =>
        rw [hst] at h
        exact Option.noConfusion h
      | some lt =>
        rw [hst] at h
        have h3 : some (a :: lt) = some l2 := h
        injection h3 with h4
        subst h4
        obtain ⟨hlen, hget⟩ := seqOpt_get t lt hst
        refine ⟨by simp [hlen], ?_⟩
        intro k hk hk2
        cases k with
        | zero => rfl
        | succ k2 =>
          exact hget k2 (Nat.lt_of_succ_lt_succ hk)
            (Nat.lt_of_succ_lt_succ hk2)

/-- Claim C7: in the nodes dump, the line for the reported root carries a
parentId equal to the root's own id (self-referential root), and the line
for every other traversed node carries the id of that node's actual
parent. -/
theorem dump_root_self_parent (ar : List Node) (r : Nat)
    (recs : List DumpRec) (hres : dumpRecords ar r = some recs) :
    recs.length = (treeGenerator ar r).length ∧
    ∀ (k : Nat) (hk : k < (treeGenerator ar r).length)
      (hk2 : k < recs.length),
      ((treeGenerator ar r).get ⟨k, hk⟩ = r →
        (recs.get ⟨k, hk2⟩).nparent = (recs.get ⟨k, hk2⟩).nid) ∧
      ((treeGenerator ar r).get ⟨k, hk⟩ ≠ r →
        ∃ p, parentAt ar ((treeGenerator ar r).get ⟨k, hk⟩) = some p ∧
          (recs.get ⟨k, hk2⟩).nparent = idAt ar p) := by
  obtain ⟨hlen, hget⟩ := seqOpt_get _ recs hres
  have hlen2 : recs.length = (treeGenerator ar r).length := by
    rw [hlen, List.length_map]
  refine ⟨hlen2, ?_⟩
  intro k hk hk2
  have hk3 : k < ((treeGenerator ar r).map (dumpRecOf ar r)).length := by
    rw [List.length_map]
    exact hk
  have hgetk := hget k hk3 hk2
  rw [get_map_eq (dumpRecOf ar r) (treeGenerator ar r) k hk hk3] at hgetk
  constructor
  · intro hroot
    unfold dumpRecOf at hgetk
    rw [if_pos hroot] at hgetk
    injection hgetk with h4
    rw [← h4]
  · intro hne
    unfold dumpRecOf at hgetk
    rw [if_neg hne] at hgetk
    cases hp : parentAt ar ((treeGenerator ar r).get ⟨k, hk⟩) with
    | none =>
      rw [hp] at hgetk
      exact Option.noConfusion hgetk
    | some p =>
      rw [hp] at hgetk
      injection hgetk with h4
      exact ⟨p, rfl, by rw [← h4]⟩

/-- The arena of the two-level PR2 demo `>h|A|B` (root → A → B). -/
def pr2DumpArena : List Node :=
  (processHeaders (initPR2 0) [("h", ["A", "B"])]).arena

/-- The dump records `writeDumpFiles` produces for `pr2DumpArena` with
reported root 1 (node "A"). -/
def pr2DumpRecs : List DumpRec :=
  [⟨PId.num 1, PId.num 1, "superkingdom", "A"⟩,
   ⟨PId.num 2, PId.num 1, "kingdom", "B"⟩]

def pr2NodeLines : List String :=
  ["1\t|\t1\t|\tsuperkingdom\t\n", "2\t|\t1\t|\tkingdom\t\n"]

def pr2NameLines : List String :=
  ["1\t|\tA\t|\t\t|\tscientific name\t\n",
   "2\t|\tB\t|\t\t|\tscientific name\t\n"]

/-- Witness for `dump_root_self_parent`: on the demo tree the reported
root's line is self-parented. -/
theorem dump_root_self_parent_witness :
    dumpRecords pr2DumpArena 1 = some pr2DumpRecs ∧
    (pr2DumpRecs.get ⟨0, by decide⟩).nparent =
      (pr2DumpRecs.get ⟨0, by decide⟩).nid :=
  ⟨by decide,
   (((dump_root_self_parent pr2DumpArena 1 pr2DumpRecs (by decide)).2 0
      (by decide) (by decide)).1 (by decide))⟩

/-- Claim C8: every emitted line matches its fixed byte format: each
nodes-dump line is "{id}\t|\t{parentId}\t|\t{rank}\t\n", each names-dump
line is "{id}\t|\t{name}\t|\t\t|\tscientific name\t\n" (empty third
column, literal "scientific name" fourth column), and each record-map
line is "{recordId}\t{taxId}\n". -/
theorem dump_line_format (ar : List Node) (r : Nat) (ns nms : List String)
    (hres : writeDumpFiles ar r = some (ns, nms)) :
    (∀ l ∈ ns, ∃ a b c, l = a ++ "\t|\t" ++ b ++ "\t|\t" ++ c ++ "\t\n") ∧
    (∀ l ∈ nms, ∃ a b,
      l = a ++ "\t|\t" ++ b ++ "\t|\t\t|\tscientific name\t\n") ∧
    ∀ (tm : List (String × PId)) (l : String), l ∈ writeTaxMap tm →
      ∃ a b, l = a ++ "\t" ++ b ++ "\n" := by
  unfold writeDumpFiles at hres
  cases hd : dumpRecords ar r with
  | none =>
    rw [hd] at hres
    exact Option.noConfusion hres
  | some recs =>
    rw [hd] at hres
    have hres2 : some (recs.map renderNodeLine, recs.map renderNameLine) =
        some (ns, nms) := hres
    injection hres2 with h2
    rw [Prod.mk.injEq] at h2
    obtain ⟨hn, hm⟩ := h2
    refine ⟨?_, ?_, ?_⟩
    · intro l hl
      rw [← hn] at hl
      obtain ⟨dr, _, hdr⟩ := List.mem_map.mp hl
      exact ⟨renderPId dr.nid, renderPId dr.nparent, dr.nrank,
        by rw [← hdr]; rfl⟩
    · intro l hl
      rw [← hm] at hl
      obtain ⟨dr, _, hdr⟩ := List.mem_map.mp hl
      exact ⟨renderPId dr.nid, dr.nname, by rw [← hdr]; rfl⟩
    · intro tm l hl
      obtain ⟨kv, _, hkv⟩ := List.mem_map.mp hl
      exact ⟨kv.1, renderPId kv.2, by rw [← hkv]; rfl⟩

/-- Witness for `dump_line_format` on the demo tree: its first node line,
first name line, and a one-entry record map line, each in the fixed
format. -/
theorem dump_line_format_witness :
    writeDumpFiles pr2DumpArena 1 = some (pr2NodeLines, pr2NameLines) ∧
    (∃ a b c, "1\t|\t1\t|\tsuperkingdom\t\n" =
      a ++ "\t|\t" ++ b ++ "\t|\t" ++ c ++ "\t\n") ∧
    (∃ a b, "1\t|\tA\t|\t\t|\tscientific name\t\n" =
      a ++ "\t|\t" ++ b ++ "\t|\t\t|\tscientific name\t\n") ∧
    (∃ a b, "h\t2\n" = a ++ "\t" ++ b ++ "\n") :=
  ⟨by decide,
   (dump_line_format pr2DumpArena 1 pr2NodeLines pr2NameLines
       (by decide)).1 "1\t|\t1\t|\tsuperkingdom\t\n" (by decide),
   (dump_line_format pr2DumpArena 1 pr2NodeLines pr2NameLines
       (by decide)).2.1 "1\t|\tA\t|\t\t|\tscientific name\t\n"
     (by decide),
   (dump_line_format pr2DumpArena 1 pr2NodeLines pr2NameLines
       (by decide)).2.2 [("h", PId.num 2)] "h\t2\n" (by decide)⟩
